import Mathlib

/-!
Shallow embedding of the schedule extraction engine of the Schedule-bot
repository (files `schedule_parser.py` and `excel_merger.py`).

Modelling conventions:
* A spreadsheet cell is `Option String`: `none` models a `NaN`/empty cell
  (`pd.isna`), `some s` models a non-empty cell whose `str(value)` is `s`.
* The loaded `DataFrame` is a `Grid`: row/column counts plus a total cell
  function.  (Out-of-window cells of the fixed day table are simply read from
  the function; the Python code would raise and abort on a too-small sheet,
  a path none of the verified claims depends on.)
* Python string primitives (`strip`, `split`, `in`, `len`, `upper`,
  `lower`, `isdigit`, `int(...)`, `<` on strings) are implemented here
  structurally on the character list of a `String`, so that every
  definition evaluates; `upper`/`lower` are modelled on ASCII plus the
  Cyrillic block actually occurring in the data (identity elsewhere),
  `isdigit` on ASCII digits, and `int(...)` as optional sign plus decimal
  digits after stripping whitespace.
* Python dicts keyed by strings are association lists (insertion ordered)
  or, for the parser's long-lived `self.schedule`, a function
  `String → Option ...` (the code never iterates over that dict).
* Python sets are duplicate-free lists; `sorted` is the stable
  `List.insertionSort` with a non-strict comparison, which matches the
  behaviour of Python's stable sort with a key function.
-/

namespace ScheduleBot

/-- Python whitespace as stripped by `str.strip()` (ASCII portion). -/
def pyIsSpace (c : Char) : Bool :=
  c == ' ' || c == '\t' || c == '\n' || c == '\r' || c == '\x0b' || c == '\x0c'

/-- Strip leading and trailing whitespace from a character list. -/
def stripList (s : List Char) : List Char :=
  ((s.dropWhile pyIsSpace).reverse.dropWhile pyIsSpace).reverse

/-- Python `s.strip()`. -/
def pyStrip (s : String) : String := ⟨stripList s.data⟩

/-- Python `len(s)` (count of code points). -/
def pyLen (s : String) : Nat := s.data.length

/-- Python single-character containment `c in s`. -/
def hasChar (s : String) (c : Char) : Bool := s.data.contains c

/-- Python `s.split(sep)` for a one-character separator. -/
def pySplitChar (sep : Char) : List Char → List (List Char)
  | [] => [[]]
  | c :: cs =>
    let rest := pySplitChar sep cs
    if c == sep then [] :: rest
    else
      match rest with
      | [] => [[c]]
      | r :: rs => (c :: r) :: rs

/-- Model of Python `str.upper` restricted to ASCII letters and the Cyrillic
letters used by the schedule sheets; all other characters are unchanged. -/
def pyUpperChar (c : Char) : Char :=
  if decide ('a' ≤ c) && decide (c ≤ 'z') then Char.ofNat (c.toNat - 32)
  else if decide ('а' ≤ c) && decide (c ≤ 'я') then Char.ofNat (c.toNat - 32)
  else if c == 'ё' then 'Ё'
  else c

/-- Model of Python `str.lower` restricted to ASCII letters and the Cyrillic
letters used by the schedule sheets; all other characters are unchanged. -/
def pyLowerChar (c : Char) : Char :=
  if decide ('A' ≤ c) && decide (c ≤ 'Z') then Char.ofNat (c.toNat + 32)
  else if decide ('А' ≤ c) && decide (c ≤ 'Я') then Char.ofNat (c.toNat + 32)
  else if c == 'Ё' then 'ё'
  else c

/-- Python `value.upper()`. -/
def pyUpper (s : String) : String := ⟨s.data.map pyUpperChar⟩

/-- Python `value.lower()`. -/
def pyLower (s : String) : String := ⟨s.data.map pyLowerChar⟩

/-- Python `str.isdigit` on a single character (ASCII decimal digits). -/
def pyIsDigit (c : Char) : Bool :=
  decide ('0' ≤ c) && decide (c ≤ '9')

/-- Does `pat` occur at the head of the second list? -/
def listLeads : List Char → List Char → Bool
  | [], _ => true
  | _ :: _, [] => false
  | a :: as, b :: bs => a == b && listLeads as bs

/-- Does `pat` occur as a contiguous sublist? -/
def listHasSub (pat : List Char) : List Char → Bool
  | [] => pat.isEmpty
  | b :: bs => listLeads pat (b :: bs) || listHasSub pat bs

/-- Python substring test `pat in s`. -/
def hasSub (pat s : String) : Bool := listHasSub pat.data s.data

/-- Lexicographic (code-point) comparison of character lists, the order
Python `sorted` uses on strings, as a non-strict comparison. -/
def listLexLe : List Char → List Char → Bool
  | [], _ => true
  | _ :: _, [] => false
  | a :: as, b :: bs => if a == b then listLexLe as bs else decide (a < b)

/-- Python string order `a <= b` as a proposition. -/
def strLe (a b : String) : Prop := listLexLe a.data b.data = true

/-- Value of a non-empty run of decimal digits. -/
def natOfDigits (ds : List Char) : Nat :=
  ds.foldl (fun a c => a * 10 + (c.toNat - 48)) 0

/-- Helper for the `int(...)` model: all characters must be decimal digits. -/
def pyIntDigits (sign : Int) (ds : List Char) : Option Int :=
  if ds.isEmpty || !ds.all pyIsDigit then none
  else some (sign * Int.ofNat (natOfDigits ds))

/-- Model of Python `int(s)`: strip whitespace, optional sign, decimal
digits; `none` models the `ValueError` branch.  (Python additionally allows
underscore separators and non-ASCII digits; those never occur here.) -/
def pyIntList (s : List Char) : Option Int :=
  match stripList s with
  | '+' :: rest => pyIntDigits 1 rest
  | '-' :: rest => pyIntDigits (-1) rest
  | rest => pyIntDigits 1 rest

/-- Embedding of `ScheduleParser._time_to_minutes`: start time `HH.MM` taken
before the first `-`, converted to minutes; any parse failure yields 0. -/
def time_to_minutes (time_str : String) : Int :=
  let start_time := stripList ((pySplitChar '-' time_str.data).headD [])
  match pySplitChar '.' start_time with
  | [hours, minutes] =>
    match pyIntList hours, pyIntList minutes with
    | some h, some m => h * 60 + m
    | _, _ => 0
  | _ => 0

/-- Embedding of `ScheduleParser._is_time`. -/
def is_time (value : String) : Bool :=
  hasChar value '-' && decide (8 ≤ pyLen value) &&
    (hasChar value '.' || hasChar value ':')

/-- Embedding of `ScheduleParser._is_group_name`.  The argument is already
stripped by the caller; `value[0]` is modelled with `headD` (the default is
irrelevant because the length guard rejects the empty string first). -/
def is_group_name (value : String) : Bool :=
  if hasSub "ИНФОРМАТИКА" (pyUpper value) || decide (pyLen value < 5) then false
  else if hasChar value '-' && hasChar value '(' && hasChar value ')' &&
      pyIsDigit (value.data.headD ' ') then true
  else false

/-- The loaded spreadsheet: dimensions plus cell contents (`none` = `NaN`). -/
structure Grid where
  numRows : Nat
  numCols : Nat
  cell : Nat → Nat → Option String

/-- One discovered group header: `{'name': ..., 'column': ...}`. -/
structure GroupInfo where
  name : String
  column : Nat
  deriving DecidableEq, Repr

/-- One row of the scan in `_find_and_extract_groups`: the qualifying tokens
of row `r` in column order, columns `range(2, len(row))`. -/
def groups_in_row (g : Grid) (r : Nat) : List GroupInfo :=
  (List.range' 2 (g.numCols - 2)).filterMap (fun c =>
    match g.cell r c with
    | none => none
    | some v => if is_group_name (pyStrip v) then some ⟨pyStrip v, c⟩ else none)

/-- Scan of the candidate header rows, first row with at least two tokens
wins (the Python loop `break`s there). -/
def find_groups_from (g : Grid) : List Nat → Option (List GroupInfo)
  | [] => none
  | r :: rs =>
    let gs := groups_in_row g r
    if 2 ≤ gs.length then some gs else find_groups_from g rs

/-- Embedding of `ScheduleParser._find_and_extract_groups`: rows
`range(0, min(30, len(df)))`; `none` models the case where `self.groups` is
left untouched because no row qualified. -/
def find_and_extract_groups (g : Grid) : Option (List GroupInfo) :=
  find_groups_from g (List.range (min 30 g.numRows))

/-- Loop state of the per-day row walk in `_parse_schedule`:
`lessons_by_time` (dict of sets, insertion ordered, values duplicate free),
`last_time` and `last_lesson`. -/
structure DayState where
  slots : List (String × List String)
  last_time : Option String
  last_lesson : Option String
  deriving DecidableEq, Repr

/-- Association-list lookup, modelling Python `dict.get`. -/
def lookupA {α : Type} (d : List (String × α)) (k : String) : Option α :=
  (d.find? (fun p => p.1 == k)).map (fun p => p.2)

/-- Embedding of `lessons_by_time[time_str] = set()` on first use followed by
`.add(lesson_str)`: create the key at the end, then add the lesson to its
set (sets collapse duplicates). -/
def addLesson (slots : List (String × List String)) (t v : String) :
    List (String × List String) :=
  match lookupA slots t with
  | none => slots ++ [(t, [v])]
  | some _ => slots.map (fun p =>
      if p.1 = t then (p.1, if v ∈ p.2 then p.2 else p.2 ++ [v]) else p)

/-- Embedding of one iteration of the row loop in `_parse_schedule`
(lines 86-119 of `schedule_parser.py`). -/
def processRow (st : DayState) (time_cell lesson_cell : Option String) : DayState :=
  let time_value := match time_cell with
    | none => st.last_time
    | some v => some v
  match time_value, lesson_cell with
  | some tv, some lv =>
    let time_str := pyStrip tv
    let lesson_str := pyStrip lv
    let st1 := if is_time time_str then
        { st with last_time := some time_str, last_lesson := none }
      else st
    if is_time time_str && !(lesson_str == "") && !(lesson_str == "nan") &&
        decide (2 < pyLen lesson_str) && !(some lesson_str == st1.last_lesson)
    then { st1 with slots := addLesson st1.slots time_str lesson_str,
                    last_lesson := some lesson_str }
    else st1
  | _, _ => st

/-- The row walk of `_parse_schedule` for one group column and one day range
(`range(start_row, end_row + 1)`, time cell in column 1). -/
def parse_day (g : Grid) (col startRow endRow : Nat) : DayState :=
  (List.range' startRow (endRow + 1 - startRow)).foldl
    (fun st r => processRow st (g.cell r 1) (g.cell r col)) ⟨[], none, none⟩

/-- Non-strict comparison of time labels by start minute, the key order used
by `sorted(lessons_by_time.keys(), key=_time_to_minutes)`. -/
def timeLE (a b : String) : Prop := time_to_minutes a ≤ time_to_minutes b

instance : DecidableRel timeLE := fun a b =>
  inferInstanceAs (Decidable (time_to_minutes a ≤ time_to_minutes b))

instance : IsTotal String timeLE := ⟨fun _ _ => Int.le_total _ _⟩

instance : IsTrans String timeLE := ⟨fun _ _ _ h1 h2 => le_trans h1 h2⟩

instance : DecidableRel strLe := fun a b =>
  inferInstanceAs (Decidable (listLexLe a.data b.data = true))

/-- The sorted day content before string formatting: time labels sorted by
start minute (stable), each with its lesson set sorted lexicographically. -/
def dayStructured (st : DayState) : List (String × List String) :=
  (List.insertionSort timeLE (st.slots.map (fun p => p.1))).map
    (fun t => (t, List.insertionSort strLe ((lookupA st.slots t).getD [])))

/-- Formatting of one time slot block (lines 125-127). -/
def renderBlock (p : String × List String) : String :=
  "⏰ " ++ p.1 ++ String.join (p.2.map (fun l => "\n📚 " ++ l))

/-- The formatted block list appended to `self.schedule[group][day]`. -/
def renderDay (st : DayState) : List String :=
  (dayStructured st).map renderBlock

/-- The fixed day-to-row-range table `days_ranges`. -/
def days_ranges : List (String × Nat × Nat) :=
  [("понедельник", 18, 32), ("вторник", 33, 47), ("среда", 48, 62),
   ("четверг", 63, 78), ("пятница", 79, 93), ("суббота", 94, 108)]

/-- The per-group day dict built by `_parse_schedule`: the six ranged days in
table order followed by the always-empty Sunday (dict insertion order). -/
def parse_schedule_group (g : Grid) (col : Nat) : List (String × List String) :=
  days_ranges.map (fun d => (d.1, renderDay (parse_day g col d.2.1 d.2.2))) ++
    [("воскресенье", [])]

/-- The long-lived parser state: `self.groups` and `self.schedule`. -/
structure ParserState where
  groups : List GroupInfo
  schedule : String → Option (List (String × List String))

/-- Embedding of `_parse_schedule`: assign a freshly built day dict to
`self.schedule[group_name]` for every discovered group. -/
def parse_schedule (sch : String → Option (List (String × List String)))
    (g : Grid) (groups : List GroupInfo) :
    String → Option (List (String × List String)) :=
  groups.foldl
    (fun s gi => fun name =>
      if name = gi.name then some (parse_schedule_group g gi.column) else s name)
    sch

/-- Embedding of `ScheduleParser.parse` applied to an already loaded grid:
update `self.groups` only when the locator succeeded, fail when the stored
group list is empty, otherwise rebuild the stored schedule. -/
def parse (st : ParserState) (g : Grid) : Bool × ParserState :=
  let st1 := match find_and_extract_groups g with
    | some gs => { st with groups := gs }
    | none => st
  if st1.groups.isEmpty then (false, st1)
  else (true, { st1 with schedule := parse_schedule st1.schedule g st1.groups })

/-- Embedding of `ScheduleParser.get_groups`. -/
def get_groups (st : ParserState) : List String :=
  st.groups.map (fun gi => gi.name)

/-- Embedding of `ScheduleParser.get_schedule_for_group`
(`self.schedule.get(group, {})`). -/
def get_schedule_for_group (st : ParserState) (group : String) :
    List (String × List String) :=
  (st.schedule group).getD []

/-- Embedding of `ScheduleParser.get_schedule_for_day`. -/
def get_schedule_for_day (st : ParserState) (group day : String) : List String :=
  (lookupA (get_schedule_for_group st group) (pyLower day)).getD []

/-- The `day_display` table of `format_day_schedule`. -/
def day_display : List (String × String) :=
  [("понедельник", "📍 ПОНЕДЕЛЬНИК"), ("вторник", "📍 ВТОРНИК"),
   ("среда", "📍 СРЕДА"), ("четверг", "📍 ЧЕТВЕРГ"),
   ("пятница", "📍 ПЯТНИЦА"), ("суббота", "📍 СУББОТА"),
   ("воскресенье", "📍 ВОСКРЕСЕНЬЕ")]

/-- Python interpolation of an optional value into an f-string (`None`
prints as the text `None`). -/
def fmtOpt : Option String → String
  | some s => s
  | none => "None"

/-- Embedding of `ScheduleParser.format_day_schedule`. -/
def format_day_schedule (st : ParserState) (group day : String) : String :=
  let day_lower := pyLower day
  let lessons := get_schedule_for_day st group day
  if lessons.isEmpty then
    fmtOpt (lookupA day_display day_lower) ++ "\nНет занятий"
  else
    fmtOpt (lookupA day_display day_lower) ++ "\n" ++
      String.join (lessons.map (fun l => "\n" ++ l ++ "\n"))

/-! Embedding of `excel_merger.py`.  A raw worksheet is modelled as a total
cell function; the `openpyxl` range string `"A1:B2"` is modelled directly as
the rectangle it denotes (0-indexed here, purely a coordinate convention). -/

/-- A merged rectangle (inclusive bounds), the `MergedRange` of the spec. -/
structure MergedRange where
  startRow : Nat
  startCol : Nat
  endRow : Nat
  endCol : Nat
  deriving DecidableEq, Repr

/-- Membership of a cell in a merged rectangle. -/
def inRange (mr : MergedRange) (r c : Nat) : Bool :=
  decide (mr.startRow ≤ r) && decide (r ≤ mr.endRow) &&
    decide (mr.startCol ≤ c) && decide (c ≤ mr.endCol)

/-- Embedding of `ExcelMerger._expand_merged_range`: write the top-left value
of the SOURCE sheet into every cell of the rectangle of the destination
sheet. -/
def expand_merged_range (src dst : Nat → Nat → Option String)
    (mr : MergedRange) : Nat → Nat → Option String :=
  fun r c => if inRange mr r c then src mr.startRow mr.startCol else dst r c

/-- Embedding of `ExcelMerger.merge_cells`: start from a copy of the source
sheet, then expand every merged range in list order.  The source sheet is a
pure value here, so it is unchanged by construction. -/
def merge_cells (src : Nat → Nat → Option String) (ranges : List MergedRange) :
    Nat → Nat → Option String :=
  ranges.foldl (expand_merged_range src) src

/-- Two merged rectangles that do not overlap (separated on rows or on
columns). -/
def separated (a b : MergedRange) : Prop :=
  a.endRow < b.startRow ∨ b.endRow < a.startRow ∨
    a.endCol < b.startCol ∨ b.endCol < a.startCol

instance : DecidableRel separated := fun a b =>
  inferInstanceAs (Decidable (a.endRow < b.startRow ∨ b.endRow < a.startRow ∨
    a.endCol < b.startCol ∨ b.endCol < a.startCol))

/-! Claim-side definitions (transcribed from the claim texts, for comparison
with the source embedding) and concrete input data used by counterexamples
and witnesses. -/

/-- Claim-side transcription of C1's per-row rule, as stated: substitute
`last_time` for an empty time cell; then, whenever the (possibly
substituted) time value satisfies the time-label grammar, update `last_time`
and reset `last_lesson`; then accept the lesson value iff the listed
conditions hold.  (No requirement that the lesson cell be non-empty for the
update step.) -/
def claimStepC1 (st : DayState) (tc lc : Option String) : DayState :=
  let tv := match tc with
    | none => st.last_time
    | some v => some v
  match tv with
  | none => st
  | some t0 =>
    let t := pyStrip t0
    let st1 := if is_time t then
        { st with last_time := some t, last_lesson := none }
      else st
    let v := match lc with
      | none => ""
      | some l => pyStrip l
    if is_time t ∧ v ≠ "" ∧ v ≠ "nan" ∧ 2 < pyLen v ∧ some v ≠ st1.last_lesson
    then { st1 with slots := addLesson st1.slots t v, last_lesson := some v }
    else st1

/-- Claim-side day walk built from `claimStepC1`. -/
def claimParseDayC1 (g : Grid) (col startRow endRow : Nat) : DayState :=
  (List.range' startRow (endRow + 1 - startRow)).foldl
    (fun st r => claimStepC1 st (g.cell r 1) (g.cell r col)) ⟨[], none, none⟩

/-- Amended claim-side transcription of C1's per-row rule: identical to
`claimStepC1` except that the time update (and everything after it) only
happens on rows whose lesson cell is non-empty, as the code requires. -/
def claimStepC1Amended (st : DayState) (tc lc : Option String) : DayState :=
  let tv := match tc with
    | none => st.last_time
    | some v => some v
  match tv, lc with
  | some t0, some l0 =>
    let t := pyStrip t0
    let v := pyStrip l0
    let st1 := if is_time t then
        { st with last_time := some t, last_lesson := none }
      else st
    if is_time t ∧ v ≠ "" ∧ v ≠ "nan" ∧ 2 < pyLen v ∧ some v ≠ st1.last_lesson
    then { st1 with slots := addLesson st1.slots t v, last_lesson := some v }
    else st1
  | _, _ => st

/-- Grid for the C1 counterexample: row 18 has a fresh time label but an
empty lesson cell, row 19 has an empty time cell and a lesson. -/
def gC1 : Grid :=
  { numRows := 109, numCols := 3,
    cell := fun r c =>
      if r = 18 ∧ c = 1 then some "8.30-10.00"
      else if r = 19 ∧ c = 2 then some "Math" else none }

/-- Grid for the C2 counterexample: two distinct time labels with the same
start minute (510). -/
def gC2 : Grid :=
  { numRows := 109, numCols := 3,
    cell := fun r c =>
      if r = 18 then
        (if c = 1 then some "8.30-10.00"
         else if c = 2 then some "AAA" else none)
      else if r = 19 then
        (if c = 1 then some "08.30-10.00"
         else if c = 2 then some "BBB" else none)
      else none }

/-- Grid for the C3 witness: the same lesson repeated on two consecutive
rows under one time label (row 19 has a blank time cell). -/
def gC3 : Grid :=
  { numRows := 109, numCols := 3,
    cell := fun r c =>
      if r = 18 ∧ c = 1 then some "8.30-10.00"
      else if r = 18 ∧ c = 2 then some "Math III"
      else if r = 19 ∧ c = 2 then some "Math III"
      else none }

/-- A grid whose header row 0 carries two qualifying group tokens. -/
def gGood : Grid :=
  { numRows := 109, numCols := 4,
    cell := fun r c =>
      if r = 0 ∧ c = 2 then some "11-АБ(1)"
      else if r = 0 ∧ c = 3 then some "12-ВГ(1)"
      else none }

/-- A grid with no qualifying header row at all (every cell empty). -/
def gBad : Grid :=
  { numRows := 109, numCols := 4, cell := fun _ _ => none }

/-- A freshly constructed parser: `self.groups = []`, `self.schedule = {}`. -/
def initState : ParserState :=
  { groups := [], schedule := fun _ => none }

/-- A previously published day dict with one Monday lesson. -/
def prevDayMap : List (String × List String) :=
  [("понедельник", ["⏰ 8.30-10.00\n📚 Старое занятие"]), ("вторник", []),
   ("среда", []), ("четверг", []), ("пятница", []), ("суббота", []),
   ("воскресенье", [])]

/-- Parser state after a previous successful parse: non-empty `self.groups`
and a published schedule for the first group. -/
def stPrev : ParserState :=
  { groups := [⟨"11-АБ(1)", 2⟩, ⟨"12-ВГ(1)", 3⟩],
    schedule := fun name => if name = "11-АБ(1)" then some prevDayMap else none }

/-- Model of `pd.read_excel` as far as the claims need it: a file system is
a map from paths to the grid stored there. -/
def read_excel (fs : String → Grid) (path : String) : Grid := fs path

/-- Embedding of `ScheduleParser.parse` including its loading step: line 14
reads the fixed path `'schedules/schedule_merged.xlsx'`; the constructor
argument `self.file_path` (here `file_path`) is never consulted. -/
def parse_from_path (fs : String → Grid) (file_path : String)
    (st : ParserState) : Bool × ParserState :=
  parse st (read_excel fs "schedules/schedule_merged.xlsx")

/-- File system for the C9 evidence: the caller-supplied path holds a
parseable sheet, the hardcoded path holds an unparseable one. -/
def fsC9 : String → Grid :=
  fun p => if p = "schedules/custom.xlsx" then gGood else gBad

/-- The source grid of the C5 counterexample. -/
def srcC5 : Nat → Nat → Option String :=
  fun r c =>
    if r = 0 ∧ c = 0 then some "a"
    else if r = 0 ∧ c = 1 then some "b" else none

/-- First overlapping range of the C5 counterexample (top-left `(0,0)`). -/
def mrA : MergedRange := ⟨0, 0, 0, 1⟩

/-- Second overlapping range of the C5 counterexample (top-left `(0,1)`);
it overlaps `mrA` at cell `(0,1)`. -/
def mrB : MergedRange := ⟨0, 1, 1, 1⟩

/-- Last-written helper for the idempotence proof: the last group of the
list whose name is `name`, mirroring which `self.schedule[name]` assignment
survives. -/
def lastHit : List GroupInfo → String → Option GroupInfo
  | [], _ => none
  | gi :: rest, name =>
    match lastHit rest name with
    | some q => some q
    | none => if name = gi.name then some gi else none

/-- A merged range disjoint from `mrA`, used by the C5 witness. -/
def mrW2 : MergedRange := ⟨2, 0, 3, 1⟩

/-! ## Theorems -/

/-- Cells lying in none of the merged ranges are untouched by the expansion
fold. -/
theorem merge_fold_outside (src : Nat → Nat → Option String) (r c : Nat) :
    ∀ (ranges : List MergedRange) (dst : Nat → Nat → Option String),
      (∀ mr ∈ ranges, inRange mr r c = false) →
      ranges.foldl (expand_merged_range src) dst r c = dst r c := by
  intro ranges
  induction ranges with
  | nil => intro dst _; rfl
  | cons m rest ih =>
    intro dst h
    have hm := h m (List.mem_cons_self m rest)
    have hrest : ∀ mr ∈ rest, inRange mr r c = false :=
      fun mr hmr => h mr (List.mem_cons_of_mem m hmr)
    simp only [List.foldl_cons]
    rw [ih _ hrest]
    simp [expand_merged_range, hm]

/-- Separated rectangles share no cell. -/
theorem separated_not_both {a b : MergedRange} (h : separated a b) {r c : Nat}
    (ha : inRange a r c = true) : inRange b r c = false := by
  rw [← Bool.not_eq_true]
  intro hb
  simp only [inRange, Bool.and_eq_true, decide_eq_true_eq] at ha hb
  rcases h with h | h | h | h <;> omega

/-- A cell inside a range of a pairwise separated list receives the value of
that range's top-left source cell. -/
theorem merge_fold_inside (src : Nat → Nat → Option String) (r c : Nat)
    (mr : MergedRange) (hin : inRange mr r c = true) :
    ∀ (ranges : List MergedRange), List.Pairwise separated ranges →
      mr ∈ ranges → ∀ (dst : Nat → Nat → Option String),
      ranges.foldl (expand_merged_range src) dst r c =
        src mr.startRow mr.startCol := by
  intro ranges
  induction ranges with
  | nil => intro _ hmr _; cases hmr
  | cons m rest ih =>
    intro h hmr dst
    rw [List.pairwise_cons] at h
    obtain ⟨hm, hrest⟩ := h
    simp only [List.foldl_cons]
    rcases List.mem_cons.mp hmr with rfl | hmem
    · have hout : ∀ q ∈ rest, inRange q r c = false :=
        fun q hq => separated_not_both (hm q hq) hin
      rw [merge_fold_outside src r c rest _ hout]
      simp [expand_merged_range, hin]
    · exact ih hrest hmem _

/-- C5, counterexample: with the two overlapping ranges `mrA` and `mrB`, the
cell `(0,1)` lies inside `mrA` but does not hold the value of `mrA`'s
top-left cell, so the claim as universally stated fails. -/
theorem C5_counterexample :
    inRange mrA 0 1 = true ∧ mrA ∈ [mrA, mrB] ∧
      merge_cells srcC5 [mrA, mrB] 0 1 ≠ srcC5 mrA.startRow mrA.startCol := by
  decide

/-- C5, amended: for every grid and every list of PAIRWISE SEPARATED merged
ranges, the unmerger gives every cell inside a range the value originally at
that range's top-left cell and leaves every cell outside all ranges
unchanged; the source grid is a pure value and is not mutated. -/
theorem C5_unmerger_disjoint (src : Nat → Nat → Option String)
    (ranges : List MergedRange) (h : List.Pairwise separated ranges)
    (r c : Nat) :
    (∀ mr ∈ ranges, inRange mr r c = true →
        merge_cells src ranges r c = src mr.startRow mr.startCol) ∧
    ((∀ mr ∈ ranges, inRange mr r c = false) →
        merge_cells src ranges r c = src r c) := by
  unfold merge_cells
  exact ⟨fun mr hmr hin => merge_fold_inside src r c mr hin ranges h hmr src,
    fun hout => merge_fold_outside src r c ranges src hout⟩

/-- C5, witness: the amended theorem applied to a concrete source grid and
two concrete separated ranges. -/
theorem C5_witness :
    List.Pairwise separated [mrA, mrW2] ∧ inRange mrA 0 1 = true ∧
      merge_cells srcC5 [mrA, mrW2] 0 1 = srcC5 mrA.startRow mrA.startCol :=
  ⟨by decide, by decide,
    (C5_unmerger_disjoint srcC5 [mrA, mrW2] (by decide) 0 1).1 mrA
      (by decide) (by decide)⟩

/-- The per-row transition of the code coincides with the amended claim
transcription on every state and every pair of cells. -/
theorem processRow_eq_claimStepC1Amended (st : DayState)
    (tc lc : Option String) : processRow st tc lc = claimStepC1Amended st tc lc := by
  unfold processRow claimStepC1Amended
  have common : ∀ (t0 l0 : String),
      (let time_str := pyStrip t0
       let lesson_str := pyStrip l0
       let st1 := if is_time time_str then
           { st with last_time := some time_str, last_lesson := none }
         else st
       if is_time time_str && !(lesson_str == "") && !(lesson_str == "nan") &&
           decide (2 < pyLen lesson_str) && !(some lesson_str == st1.last_lesson)
       then { st1 with slots := addLesson st1.slots time_str lesson_str,
                       last_lesson := some lesson_str }
       else st1) =
      (let t := pyStrip t0
       let v := pyStrip l0
       let st1 := if is_time t then
           { st with last_time := some t, last_lesson := none }
         else st
       if is_time t ∧ v ≠ "" ∧ v ≠ "nan" ∧ 2 < pyLen v ∧ some v ≠ st1.last_lesson
       then { st1 with slots := addLesson st1.slots t v, last_lesson := some v }
       else st1) := by
    intro t0 l0
    by_cases hit : is_time (pyStrip t0)
    · by_cases h1 : pyStrip l0 = "" <;> by_cases h2 : pyStrip l0 = "nan" <;>
        by_cases h3 : 2 < pyLen (pyStrip l0) <;>
        simp [hit, h1, h2, h3]
    · simp [hit]
  cases tc with
  | none =>
    cases h : st.last_time with
    | none => cases lc <;> rfl
    | some t0 =>
      cases lc with
      | none => rfl
      | some l0 => simpa [h] using common t0 l0
  | some t0 =>
    cases lc with
    | none => rfl
    | some l0 => exact common t0 l0

/-- C1, counterexample: on the grid `gC1` (a fresh time label on a row whose
lesson cell is empty, then a lesson on a row whose time cell is empty) the
builder collects no lesson, while the row rule exactly as the claim states
it would collect one, so the claim as stated fails. -/
theorem C1_counterexample :
    (parse_day gC1 2 18 32).slots ≠ (claimParseDayC1 gC1 2 18 32).slots := by
  decide

/-- C1, amended: the builder walks the day's rows top to bottom with the
`last_time`/`last_lesson` accumulator, and on every row it behaves exactly
as the claim describes PROVIDED the time update (like the acceptance test)
only happens on rows where both a time value (after substitution) and a
non-empty lesson cell are present. -/
theorem C1_builder_row_rule :
    (∀ (st : DayState) (tc lc : Option String),
      processRow st tc lc = claimStepC1Amended st tc lc) ∧
    (∀ (g : Grid) (col s e : Nat),
      parse_day g col s e =
        (List.range' s (e + 1 - s)).foldl
          (fun st r => claimStepC1Amended st (g.cell r 1) (g.cell r col))
          ⟨[], none, none⟩) := by
  refine ⟨processRow_eq_claimStepC1Amended, fun g col s e => ?_⟩
  unfold parse_day
  rw [show (fun st r => processRow st (g.cell r 1) (g.cell r col)) =
      (fun st r => claimStepC1Amended st (g.cell r 1) (g.cell r col)) from
    funext fun st => funext fun r => processRow_eq_claimStepC1Amended st _ _]

/-- Totality of the lexicographic comparison. -/
theorem listLexLe_total : ∀ (as bs : List Char),
    listLexLe as bs = true ∨ listLexLe bs as = true := by
  intro as
  induction as with
  | nil => intro bs; left; rfl
  | cons a as ih =>
    intro bs
    cases bs with
    | nil => right; rfl
    | cons b bs =>
      by_cases hab : a = b
      · subst hab
        rcases ih bs with h | h
        · left; simp [listLexLe, h]
        · right; simp [listLexLe, h]
      · rcases lt_or_gt_of_ne hab with h | h
        · left; simp [listLexLe, hab, h]
        · right; simp [listLexLe, Ne.symm hab, h]

/-- Transitivity of the lexicographic comparison. -/
theorem listLexLe_trans : ∀ (as bs cs : List Char),
    listLexLe as bs = true → listLexLe bs cs = true →
    listLexLe as cs = true := by
  intro as
  induction as with
  | nil => intro bs cs _ _; rfl
  | cons a as ih =>
    intro bs cs h1 h2
    cases bs with
    | nil => simp [listLexLe] at h1
    | cons b bs =>
      cases cs with
      | nil => simp [listLexLe] at h2
      | cons c cs =>
        simp only [listLexLe] at h1 h2 ⊢
        by_cases hab : a = b
        · subst hab
          by_cases hbc : a = c
          · subst hbc
            simp only [beq_self_eq_true, if_true] at h1 h2 ⊢
            exact ih bs cs h1 h2
          · simp only [hbc, beq_iff_eq, if_false] at h2 ⊢
            exact h2
        · by_cases hbc : b = c
          · subst hbc
            simp only [hab, beq_iff_eq, if_false] at h1 ⊢
            exact h1
          · simp only [hab, hbc, beq_iff_eq, if_false, decide_eq_true_eq] at h1 h2
            have hac : a < c := lt_trans h1 h2
            simp [beq_iff_eq, ne_of_lt hac, hac]

instance : IsTotal String strLe :=
  ⟨fun a b => listLexLe_total a.data b.data⟩

instance : IsTrans String strLe :=
  ⟨fun _ _ _ h1 h2 => listLexLe_trans _ _ _ h1 h2⟩

/-- C2, counterexample: the day built from `gC2` renders two time slot
blocks whose labels `"8.30-10.00"` and `"08.30-10.00"` have the SAME start
minute, so the rendered order is not strictly ascending, refuting the claim
as stated. -/
theorem C2_counterexample :
    2 ≤ (dayStructured (parse_day gC2 2 18 32)).length ∧
      ¬ List.Pairwise (fun a b => time_to_minutes a.1 < time_to_minutes b.1)
        (dayStructured (parse_day gC2 2 18 32)) := by
  decide

/-- C2, amended: for every group column and day range, the rendered time
slot blocks appear in NON-DECREASING order of start-time-in-minutes (ties,
such as distinct labels with equal start minutes, keep their first-seen
order), and within each block the lesson strings are sorted in
lexicographic (code-point) order. -/
theorem C2_ordering (g : Grid) (col s e : Nat) :
    List.Pairwise (fun a b => time_to_minutes a.1 ≤ time_to_minutes b.1)
      (dayStructured (parse_day g col s e)) ∧
    (∀ p ∈ dayStructured (parse_day g col s e), List.Sorted strLe p.2) ∧
    renderDay (parse_day g col s e) =
      (dayStructured (parse_day g col s e)).map renderBlock := by
  refine ⟨?_, ?_, rfl⟩
  · have hs : List.Sorted timeLE
        (List.insertionSort timeLE
          ((parse_day g col s e).slots.map (fun p => p.1))) :=
      List.sorted_insertionSort timeLE _
    unfold dayStructured
    rw [List.pairwise_map]
    exact hs
  · intro p hp
    unfold dayStructured at hp
    rw [List.mem_map] at hp
    obtain ⟨t, _, rfl⟩ := hp
    exact List.sorted_insertionSort strLe _

/-- Lesson sets stay duplicate free under `addLesson`. -/
theorem addLesson_nodup {slots : List (String × List String)}
    (h : ∀ p ∈ slots, p.2.Nodup) (t v : String) :
    ∀ p ∈ addLesson slots t v, p.2.Nodup := by
  intro p hp
  unfold addLesson at hp
  cases hl : lookupA slots t with
  | none =>
    rw [hl] at hp
    rcases List.mem_append.mp hp with h1 | h1
    · exact h p h1
    · simp only [List.mem_singleton] at h1
      subst h1
      simp
  | some l =>
    rw [hl] at hp
    rw [List.mem_map] at hp
    obtain ⟨q, hq, rfl⟩ := hp
    by_cases hqt : q.1 = t
    · rw [if_pos hqt]
      by_cases hv : v ∈ q.2
      · simpa [hv] using h q hq
      · simp [hv, List.nodup_append, h q hq]
    · rw [if_neg hqt]
      exact h q hq

/-- One row step either keeps the slot dict or adds one lesson to it. -/
theorem processRow_slots (st : DayState) (tc lc : Option String) :
    (processRow st tc lc).slots = st.slots ∨
      ∃ t v, (processRow st tc lc).slots = addLesson st.slots t v := by
  unfold processRow
  rcases tc with _ | tv
  · cases hlt : st.last_time with
    | none => cases lc <;> (left; rfl)
    | some t0 =>
      cases lc with
      | none => left; rfl
      | some l0 =>
        by_cases hit : is_time (pyStrip t0) = true <;>
          simp only [hit, if_pos, if_neg, Bool.not_eq_true] <;> split
        · exact Or.inr ⟨_, _, rfl⟩
        · left; rfl
        · exact Or.inr ⟨_, _, rfl⟩
        · left; rfl
  · cases lc with
    | none => left; rfl
    | some l0 =>
      by_cases hit : is_time (pyStrip tv) = true <;>
        simp only [hit, if_pos, if_neg, Bool.not_eq_true] <;> split
      · exact Or.inr ⟨_, _, rfl⟩
      · left; rfl
      · exact Or.inr ⟨_, _, rfl⟩
      · left; rfl

/-- Every lesson set accumulated over a day walk is duplicate free. -/
theorem parse_day_nodup (g : Grid) (col s e : Nat) :
    ∀ p ∈ (parse_day g col s e).slots, p.2.Nodup := by
  unfold parse_day
  have main : ∀ (rows : List Nat) (st : DayState),
      (∀ p ∈ st.slots, p.2.Nodup) →
      ∀ p ∈ (rows.foldl
          (fun st r => processRow st (g.cell r 1) (g.cell r col)) st).slots,
        p.2.Nodup := by
    intro rows
    induction rows with
    | nil => intro st h; exact h
    | cons r rest ih =>
      intro st h
      simp only [List.foldl_cons]
      apply ih
      rcases processRow_slots st (g.cell r 1) (g.cell r col) with hs | ⟨t, v, hs⟩
      · rw [hs]; exact h
      · rw [hs]; exact addLesson_nodup h t v
  exact main _ _ (by intro p hp; cases hp)

/-- C3: a lesson value that was accepted for a time slot occurs exactly once
in that slot's entry set, however often the source rows repeated it. -/
theorem C3_duplicate_collapse (g : Grid) (col s e : Nat) (t : String)
    (lessons : List String) (v : String)
    (hmem : (t, lessons) ∈ (parse_day g col s e).slots) (hv : v ∈ lessons) :
    lessons.count v = 1 :=
  List.count_eq_one_of_mem (parse_day_nodup g col s e (t, lessons) hmem) hv

/-- C3, witness: on `gC3` the lesson `"Math III"` is repeated on two
consecutive rows under one time label and ends up exactly once. -/
theorem C3_witness :
    ("8.30-10.00", ["Math III"]) ∈ (parse_day gC3 2 18 32).slots ∧
      "Math III" ∈ (["Math III"] : List String) ∧
      (["Math III"] : List String).count "Math III" = 1 :=
  ⟨by decide, by decide,
    C3_duplicate_collapse gC3 2 18 32 "8.30-10.00" ["Math III"] "Math III"
      (by decide) (by decide)⟩

/-- The group-name grammar of the code agrees with the claimed grammar:
trimmed length at least 5, no case-insensitive ИНФОРМАТИКА substring, a dash
and both parentheses present, and a leading decimal digit. -/
theorem is_group_name_iff (s : String) :
    is_group_name s = true ↔
      (5 ≤ pyLen s ∧ hasSub "ИНФОРМАТИКА" (pyUpper s) = false ∧
        hasChar s '-' = true ∧ hasChar s '(' = true ∧ hasChar s ')' = true ∧
        pyIsDigit (s.data.headD ' ') = true) := by
  unfold is_group_name
  by_cases hA : hasSub "ИНФОРМАТИКА" (pyUpper s) = true <;>
    by_cases hL : pyLen s < 5 <;>
      simp [hA, hL, Bool.and_eq_true, and_assoc, Nat.not_lt,
        Nat.lt_iff_add_one_le] <;>
      omega

/-- Membership in the scanned row tokens is exactly what the claim
describes: a column in `[2, width)` whose non-empty cell has a qualifying
trimmed value, with that column recorded. -/
theorem groups_in_row_mem (g : Grid) (r : Nat) (p : GroupInfo) :
    p ∈ groups_in_row g r ↔
      (2 ≤ p.column ∧ p.column < g.numCols ∧
        ∃ v, g.cell r p.column = some v ∧ p.name = pyStrip v ∧
          is_group_name (pyStrip v) = true) := by
  unfold groups_in_row
  rw [List.mem_filterMap]
  constructor
  · rintro ⟨c, hc, hfc⟩
    rw [List.mem_range'_1] at hc
    cases hcell : g.cell r c with
    | none =>
      simp only [hcell] at hfc
      exact Option.noConfusion hfc
    | some v =>
      simp only [hcell] at hfc
      by_cases hq : is_group_name (pyStrip v) = true
      · rw [if_pos hq] at hfc
        obtain rfl := Option.some.inj hfc
        have hcol : c < g.numCols := by omega
        exact ⟨hc.1, hcol, v, hcell, rfl, hq⟩
      · rw [if_neg hq] at hfc; cases hfc
  · rintro ⟨h2, hlt, v, hcell, hname, hq⟩
    refine ⟨p.column, ?_, ?_⟩
    · rw [List.mem_range'_1]; omega
    · simp only [hcell]
      rw [if_pos hq]
      obtain ⟨nm, col⟩ := p
      simp only at hname
      rw [hname]

/-- The tokens of one scanned row are listed in strictly increasing column
order (left to right). -/
theorem groups_in_row_sorted (g : Grid) (r : Nat) :
    (groups_in_row g r).Pairwise (fun a b => a.column < b.column) := by
  unfold groups_in_row
  have main : ∀ (cols : List Nat), cols.Pairwise (· < ·) →
      (cols.filterMap (fun c =>
        match g.cell r c with
        | none => none
        | some v =>
          if is_group_name (pyStrip v) then some (⟨pyStrip v, c⟩ : GroupInfo)
          else none)).Pairwise (fun a b => a.column < b.column) := by
    intro cols
    induction cols with
    | nil => intro _; simp
    | cons c cs ih =>
      intro h
      rw [List.pairwise_cons] at h
      obtain ⟨hc, hcs⟩ := h
      rw [List.filterMap_cons]
      cases hcell : g.cell r c with
      | none => simp only [hcell]; exact ih hcs
      | some v =>
        by_cases hq : is_group_name (pyStrip v) = true
        · simp only [hcell, if_pos hq, List.pairwise_cons]
          refine ⟨?_, ih hcs⟩
          intro q hqmem
          rw [List.mem_filterMap] at hqmem
          obtain ⟨c2, hc2, hf⟩ := hqmem
          cases hcell2 : g.cell r c2 with
          | none =>
            simp only [hcell2] at hf
            exact Option.noConfusion hf
          | some v2 =>
            simp only [hcell2] at hf
            by_cases hq2 : is_group_name (pyStrip v2) = true
            · rw [if_pos hq2] at hf
              obtain rfl := Option.some.inj hf
              exact hc c2 hc2
            · rw [if_neg hq2] at hf; cases hf
        · simp only [hcell, if_neg hq]
          exact ih hcs
  exact main _ (List.pairwise_lt_range' 2 (g.numCols - 2))

/-- Characterization of the header scan over an arbitrary window
`range' s n`: success returns exactly the tokens of the first row with at
least two of them. -/
theorem find_groups_from_range' (g : Grid) :
    ∀ (n s : Nat) (gs : List GroupInfo),
      find_groups_from g (List.range' s n) = some gs ↔
        ∃ r, s ≤ r ∧ r < s + n ∧ 2 ≤ (groups_in_row g r).length ∧
          gs = groups_in_row g r ∧
          ∀ r2, s ≤ r2 → r2 < r → (groups_in_row g r2).length < 2 := by
  intro n
  induction n with
  | zero =>
    intro s gs
    simp only [List.range'_zero, find_groups_from]
    constructor
    · rintro h; cases h
    · rintro ⟨r, h1, h2, _⟩; omega
  | succ n ih =>
    intro s gs
    rw [List.range'_succ]
    simp only [find_groups_from]
    by_cases h2 : 2 ≤ (groups_in_row g s).length
    · rw [if_pos h2]
      constructor
      · intro h
        obtain rfl := Option.some.inj h
        exact ⟨s, le_refl s, by omega, h2, rfl, fun r2 hle hlt => by omega⟩
      · rintro ⟨r, hsr, hrn, hr2, hgs, hmin⟩
        by_cases hrs : r = s
        · subst hrs; rw [hgs]
        · have hlt : s < r := lt_of_le_of_ne hsr (Ne.symm hrs)
          have := hmin s (le_refl s) hlt
          omega
    · rw [if_neg h2, ih (s + 1) gs]
      constructor
      · rintro ⟨r, h1, hn, h3, h4, h5⟩
        refine ⟨r, by omega, by omega, h3, h4, fun r2 hle hlt => ?_⟩
        by_cases hr2s : r2 = s
        · subst hr2s; omega
        · exact h5 r2 (by omega) hlt
      · rintro ⟨r, h1, hn, h3, h4, h5⟩
        have hrs : r ≠ s := by rintro rfl; omega
        exact ⟨r, by omega, by omega, h3, h4,
          fun r2 hle hlt => h5 r2 (by omega) hlt⟩

/-- C4: the locator scans rows `[0, min 30 numRows)` top to bottom over
columns `[2, width)`; a cell qualifies exactly under the claimed grammar;
the first row with at least two qualifying tokens supplies the group list,
in left-to-right column order, and scanning stops there. -/
theorem C4_group_header_locator :
    (∀ s : String, is_group_name s = true ↔
      (5 ≤ pyLen s ∧ hasSub "ИНФОРМАТИКА" (pyUpper s) = false ∧
        hasChar s '-' = true ∧ hasChar s '(' = true ∧ hasChar s ')' = true ∧
        pyIsDigit (s.data.headD ' ') = true)) ∧
    (∀ (g : Grid) (r : Nat) (p : GroupInfo), p ∈ groups_in_row g r ↔
      (2 ≤ p.column ∧ p.column < g.numCols ∧
        ∃ v, g.cell r p.column = some v ∧ p.name = pyStrip v ∧
          is_group_name (pyStrip v) = true)) ∧
    (∀ (g : Grid) (r : Nat),
      (groups_in_row g r).Pairwise (fun a b => a.column < b.column)) ∧
    (∀ (g : Grid) (gs : List GroupInfo),
      find_and_extract_groups g = some gs ↔
        ∃ r, r < min 30 g.numRows ∧ 2 ≤ (groups_in_row g r).length ∧
          gs = groups_in_row g r ∧
          ∀ r2, r2 < r → (groups_in_row g r2).length < 2) := by
  refine ⟨is_group_name_iff, groups_in_row_mem, groups_in_row_sorted, ?_⟩
  intro g gs
  unfold find_and_extract_groups
  rw [List.range_eq_range', find_groups_from_range' g (min 30 g.numRows) 0 gs]
  constructor
  · rintro ⟨r, _, h2, h3, h4, h5⟩
    exact ⟨r, by omega, h3, h4, fun r2 hlt => h5 r2 (Nat.zero_le r2) hlt⟩
  · rintro ⟨r, h2, h3, h4, h5⟩
    exact ⟨r, Nat.zero_le r, by omega, h3, h4, fun r2 _ hlt => h5 r2 hlt⟩

/-- C6, evidence of the code bug: on a grid with NO qualifying header row,
a parser that previously parsed successfully does not report failure — the
stale-group guard `if not self.groups` passes, `parse` returns `True` and
overwrites the previously published schedule from the stale group columns. -/
theorem C6_failure_path_code_bug :
    find_and_extract_groups gBad = none ∧
      (parse stPrev gBad).1 = true ∧
      (parse stPrev gBad).2.schedule "11-АБ(1)" ≠
        stPrev.schedule "11-АБ(1)" := by
  decide

/-- Pointwise description of `_parse_schedule`: the surviving assignment for
a group name is the last one in the group list. -/
theorem parse_schedule_apply (g : Grid) :
    ∀ (groups : List GroupInfo)
      (sch : String → Option (List (String × List String))) (name : String),
      parse_schedule sch g groups name =
        match lastHit groups name with
        | some q => some (parse_schedule_group g q.column)
        | none => sch name := by
  intro groups
  induction groups with
  | nil => intro sch name; rfl
  | cons gi rest ih =>
    intro sch name
    have hstep : parse_schedule sch g (gi :: rest) =
        parse_schedule
          (fun nm => if nm = gi.name then
              some (parse_schedule_group g gi.column)
            else sch nm) g rest := rfl
    rw [hstep, ih]
    simp only [lastHit]
    cases h : lastHit rest name with
    | some q => rfl
    | none =>
      by_cases hn : name = gi.name <;> simp [hn]

/-- Re-running the schedule assignment with the same grid and the same
groups changes nothing. -/
theorem parse_schedule_idem (g : Grid) (groups : List GroupInfo)
    (sch : String → Option (List (String × List String))) :
    parse_schedule (parse_schedule sch g groups) g groups =
      parse_schedule sch g groups := by
  funext name
  rw [parse_schedule_apply g groups (parse_schedule sch g groups) name]
  cases h : lastHit groups name with
  | some q =>
    rw [parse_schedule_apply g groups sch name, h]
  | none =>
    simp only [h]

/-- C7: parsing the same grid twice is idempotent — the second run returns
the same flag and leaves the parser state (groups and published schedule)
exactly as after the first run. -/
theorem C7_parse_idempotent (st : ParserState) (g : Grid) :
    parse (parse st g).2 g = parse st g := by
  obtain ⟨groups0, sch0⟩ := st
  cases hf : find_and_extract_groups g with
  | none =>
    by_cases hemp : groups0.isEmpty = true
    · have h1 : parse ⟨groups0, sch0⟩ g = (false, ⟨groups0, sch0⟩) := by
        unfold parse; rw [hf]; simp [hemp]
      rw [h1]
      exact h1
    · have h1 : parse ⟨groups0, sch0⟩ g =
          (true, ⟨groups0, parse_schedule sch0 g groups0⟩) := by
        unfold parse; rw [hf]; simp [hemp]
      rw [h1]
      have h2 : parse ⟨groups0, parse_schedule sch0 g groups0⟩ g =
          (true, ⟨groups0,
            parse_schedule (parse_schedule sch0 g groups0) g groups0⟩) := by
        unfold parse; rw [hf]; simp [hemp]
      rw [h2, parse_schedule_idem]
  | some gs =>
    by_cases hemp : gs.isEmpty = true
    · have h1 : parse ⟨groups0, sch0⟩ g = (false, ⟨gs, sch0⟩) := by
        unfold parse; rw [hf]; simp [hemp]
      have h2 : parse ⟨gs, sch0⟩ g = (false, ⟨gs, sch0⟩) := by
        unfold parse; rw [hf]; simp [hemp]
      rw [h1, h2]
    · have h1 : parse ⟨groups0, sch0⟩ g =
          (true, ⟨gs, parse_schedule sch0 g gs⟩) := by
        unfold parse; rw [hf]; simp [hemp]
      rw [h1]
      have h2 : parse ⟨gs, parse_schedule sch0 g gs⟩ g =
          (true, ⟨gs, parse_schedule (parse_schedule sch0 g gs) g gs⟩) := by
        unfold parse; rw [hf]; simp [hemp]
      rw [h2, parse_schedule_idem]

/-- C8: for a canonical day (one with a display header), an empty day
schedule — including the case of a group unknown to the store — formats as
the day header followed by the fixed no-lessons line; the formatter is a
total function, so it cannot fail. -/
theorem C8_empty_day_formatting (st : ParserState) (group day hdr : String)
    (h1 : lookupA day_display (pyLower day) = some hdr)
    (h2 : get_schedule_for_day st group day = []) :
    format_day_schedule st group day = hdr ++ "\nНет занятий" := by
  unfold format_day_schedule
  simp [h1, h2, fmtOpt]

/-- C8, witness: the unknown group still formats as the Monday header plus
the no-lessons line. -/
theorem C8_witness :
    lookupA day_display (pyLower "понедельник") = some "📍 ПОНЕДЕЛЬНИК" ∧
      get_schedule_for_day initState "unknown-group" "понедельник" = [] ∧
      format_day_schedule initState "unknown-group" "понедельник" =
        "📍 ПОНЕДЕЛЬНИК" ++ "\nНет занятий" :=
  ⟨by decide, by decide,
    C8_empty_day_formatting initState "unknown-group" "понедельник"
      "📍 ПОНЕДЕЛЬНИК" (by decide) (by decide)⟩

/-- C9, evidence of the code bug: the parse result never depends on the
caller-supplied path — `parse` always loads the hardcoded merged-file path.
Concretely, with a parseable sheet stored at the supplied path and an
unparseable one at the hardcoded path, `parse` fails even though the claim
says the supplied path's contents (which parse successfully) determine the
result. -/
theorem C9_path_ignored :
    (∀ (fs : String → Grid) (p1 p2 : String) (st : ParserState),
        parse_from_path fs p1 st = parse_from_path fs p2 st) ∧
      (parse initState gGood).1 = true ∧
      fsC9 "schedules/custom.xlsx" = gGood ∧
      (parse_from_path fsC9 "schedules/custom.xlsx" initState).1 = false := by
  refine ⟨fun fs p1 p2 st => rfl, ?_, ?_, ?_⟩
  · decide
  · simp [fsC9]
  · decide

/-- C10: both day queries lowercase the day argument before the lookup, so
any casing variant of a canonical (lowercase) day name behaves exactly like
the lowercase form. -/
theorem C10_day_case_insensitive (st : ParserState) (group day c : String)
    (h1 : pyLower c = c) (h2 : pyLower day = c) :
    get_schedule_for_day st group day = get_schedule_for_day st group c ∧
      format_day_schedule st group day = format_day_schedule st group c := by
  unfold format_day_schedule get_schedule_for_day
  rw [h2, h1]
  exact ⟨rfl, rfl⟩

/-- C10, witness: the upper-case spelling of Monday queries and formats
exactly like the lowercase canonical spelling. -/
theorem C10_witness :
    pyLower "понедельник" = "понедельник" ∧
      pyLower "ПОНЕДЕЛЬНИК" = "понедельник" ∧
      (get_schedule_for_day stPrev "11-АБ(1)" "ПОНЕДЕЛЬНИК" =
          get_schedule_for_day stPrev "11-АБ(1)" "понедельник" ∧
        format_day_schedule stPrev "11-АБ(1)" "ПОНЕДЕЛЬНИК" =
          format_day_schedule stPrev "11-АБ(1)" "понедельник") :=
  ⟨by decide, by decide,
    C10_day_case_insensitive stPrev "11-АБ(1)" "ПОНЕДЕЛЬНИК" "понедельник"
      (by decide) (by decide)⟩

end ScheduleBot
